import Mathlib

/-!
Verification development for the slink_platform short-link core.

We shallowly embed the code-relevant parts of the repository:
  - the Base62 encoders (strategies._base62_encode and SlinkManager.base62_encode),
  - SHA-256 / HMAC-SHA256 and the deterministic code strategies (strategies.py),
  - the random and sequential strategies (strategies.py),
  - the in-memory storage (storage.py: save_slink, get_slink, increment_click,
    find_code_by_url, alias_exists), modelled as an insertion-ordered
    association list, the faithful rendering of a Python dict,
  - the creation workflow SlinkManager.create_slink (slink_manager.py),
    with URL parsing and reachability probing abstracted into an
    environment of boolean oracle functions, since they call into the
    Python standard library / the network rather than repository code.

Machine integers are Nat with explicit reduction modulo 2^32 where the
source relies on 32-bit wrap-around (inside SHA-256).
-/

/-! ## Base62 alphabet and encoders (strategies.py, slink_manager.py) -/

/-- The 62-symbol alphabet `_BASE62_ALPHABET` / `Base62Alphabet`:
digits, then lowercase, then uppercase. -/
def base62Alphabet : List Char :=
  "0123456789abcdefghijklmnopqrstuvwxyzABCDEFGHIJKLMNOPQRSTUVWXYZ".data

/-- Digit value to character, `_BASE62_ALPHABET[rem]`. -/
def b62digit (d : Nat) : Char := base62Alphabet.getD d '0'

/-- Membership in the 62-symbol alphabet `[0-9a-zA-Z]`. -/
def isB62Char (c : Char) : Bool := base62Alphabet.contains c

/-- Fuel-bounded divmod loop shared by the two Base62 encoders; the fuel
only bounds the iteration count (n itself is always enough fuel, since
each division by 62 strictly decreases a positive value). -/
def b62DigitsAux : Nat → Nat → List Char
  | _, 0 => []
  | 0, _ + 1 => []
  | fuel + 1, n + 1 => b62digit ((n + 1) % 62) :: b62DigitsAux fuel ((n + 1) / 62)

/-- The list of Base62 digit characters of `n`, least significant first;
this is the `out` list built by the `while num > 0` loop of
`_base62_encode` (and of `SlinkManager.base62_encode`) before reversal. -/
def b62Digits (n : Nat) : List Char := b62DigitsAux n n

/-- Core of both Base62 encoders on a non-negative integer:
`0 -> "0"`, otherwise the digit list reversed (most significant first). -/
def base62_encode_nat (num : Nat) : String :=
  if num = 0 then "0" else String.mk (b62Digits num).reverse

/-- strategies._base62_encode: raises ValueError on negative input,
otherwise runs the divmod loop. -/
def base62_encode (num : Int) : Except String String :=
  if num < 0 then Except.error "num must be non-negative"
  else Except.ok (base62_encode_nat num.toNat)

/-- The digit lists of `SlinkManager.base62_encode`'s `while num:` loop,
modelled with explicit fuel because the loop need not terminate on
Python ints: each iteration performs Python floor divmod by 62
(`Int.fdiv` / `Int.fmod`).  `none` means the loop is still running when
the fuel runs out. -/
def manager_b62_digits (fuel : Nat) (num : Int) : Option (List Char) :=
  match fuel with
  | 0 => if num = 0 then some [] else none
  | f + 1 =>
    if num = 0 then some []
    else (manager_b62_digits f (Int.fdiv num 62)).map
      (fun l => b62digit (Int.fmod num 62).toNat :: l)

/-- SlinkManager.base62_encode: no negativity guard; `0 -> "0"`, else the
`while num:` loop (fuel-bounded model). -/
def manager_base62_encode (fuel : Nat) (num : Int) : Option String :=
  if num = 0 then some "0"
  else (manager_b62_digits fuel num).map (fun l => String.mk l.reverse)

/-- Python string slicing `s[:n]`. -/
def pyTake (s : String) (n : Nat) : String := String.mk (s.data.take n)

/-! ## UTF-8 encoding of strings (Python `str.encode("utf-8")`) -/

/-- UTF-8 byte sequence of a single Unicode scalar value. -/
def utf8EncodeScalar (n : Nat) : List Nat :=
  if n < 0x80 then [n]
  else if n < 0x800 then [0xC0 + n / 64, 0x80 + n % 64]
  else if n < 0x10000 then
    [0xE0 + n / 4096, 0x80 + (n / 64) % 64, 0x80 + n % 64]
  else
    [0xF0 + n / 262144, 0x80 + (n / 4096) % 64, 0x80 + (n / 64) % 64, 0x80 + n % 64]

/-- `s.encode("utf-8")` as a list of byte values. -/
def strBytes (s : String) : List Nat :=
  (s.data.map Char.toNat).foldr (fun c acc => utf8EncodeScalar c ++ acc) []

/-! ## SHA-256 (hashlib.sha256) -/

/-- 2^32, the modulus of SHA-256 word arithmetic. -/
def M32 : Nat := 4294967296

/-- Right rotation of a 32-bit word. -/
def rotr32 (x k : Nat) : Nat := ((x >>> k) ||| (x <<< (32 - k))) % M32

/-- SHA-256 Ch(x,y,z) = (x AND y) XOR (NOT x AND z). -/
def shaCh (x y z : Nat) : Nat :=
  Nat.xor (Nat.land x y) (Nat.land (Nat.xor x 4294967295) z)

/-- SHA-256 Maj(x,y,z). -/
def shaMaj (x y z : Nat) : Nat :=
  Nat.xor (Nat.xor (Nat.land x y) (Nat.land x z)) (Nat.land y z)

/-- SHA-256 big sigma 0. -/
def bigSigma0 (x : Nat) : Nat := Nat.xor (Nat.xor (rotr32 x 2) (rotr32 x 13)) (rotr32 x 22)

/-- SHA-256 big sigma 1. -/
def bigSigma1 (x : Nat) : Nat := Nat.xor (Nat.xor (rotr32 x 6) (rotr32 x 11)) (rotr32 x 25)

/-- SHA-256 small sigma 0. -/
def smallSigma0 (x : Nat) : Nat := Nat.xor (Nat.xor (rotr32 x 7) (rotr32 x 18)) (x >>> 3)

/-- SHA-256 small sigma 1. -/
def smallSigma1 (x : Nat) : Nat := Nat.xor (Nat.xor (rotr32 x 17) (rotr32 x 19)) (x >>> 10)

/-- The 64 SHA-256 round constants (FIPS 180-4), written in decimal. -/
def shaK : List Nat :=
  [1116352408, 1899447441, 3049323471, 3921009573,
   961987163, 1508970993, 2453635748, 2870763221,
   3624381080, 310598401, 607225278, 1426881987,
   1925078388, 2162078206, 2614888103, 3248222580,
   3835390401, 4022224774, 264347078, 604807628,
   770255983, 1249150122, 1555081692, 1996064986,
   2554220882, 2821834349, 2952996808, 3210313671,
   3336571891, 3584528711, 113926993, 338241895,
   666307205, 773529912, 1294757372, 1396182291,
   1695183700, 1986661051, 2177026350, 2456956037,
   2730485921, 2820302411, 3259730800, 3345764771,
   3516065817, 3600352804, 4094571909, 275423344,
   430227734, 506948616, 659060556, 883997877,
   958139571, 1322822218, 1537002063, 1747873779,
   1955562222, 2024104815, 2227730452, 2361852424,
   2428436474, 2756734187, 3204031479, 3329325298]

/-- The initial SHA-256 hash state, written in decimal. -/
def shaH0 : List Nat :=
  [1779033703, 3144134277, 1013904242, 2773480762,
   1359893119, 2600822924, 528734635, 1541459225]

/-- Big-endian 8-byte encoding of a (length) value. -/
def be8 (n : Nat) : List Nat :=
  [(n >>> 56) % 256, (n >>> 48) % 256, (n >>> 40) % 256, (n >>> 32) % 256,
   (n >>> 24) % 256, (n >>> 16) % 256, (n >>> 8) % 256, n % 256]

/-- Big-endian 4-byte encoding of a 32-bit word. -/
def be4 (n : Nat) : List Nat :=
  [(n >>> 24) % 256, (n >>> 16) % 256, (n >>> 8) % 256, n % 256]

/-- SHA-256 message padding: 0x80, zeros, then the 64-bit message bit length. -/
def padMessage (msg : List Nat) : List Nat :=
  let len := msg.length
  let k := (64 - ((len + 9) % 64)) % 64
  msg ++ [0x80] ++ List.replicate k 0 ++ be8 (len * 8)

/-- Fuel-bounded 64-byte chunker (the list's length is always enough fuel,
since dropping 64 elements of a nonempty list shortens it). -/
def toBlocksAux : Nat → List Nat → List (List Nat)
  | _, [] => []
  | 0, _ :: _ => []
  | fuel + 1, x :: xs => (x :: xs).take 64 :: toBlocksAux fuel ((x :: xs).drop 64)

/-- Split the padded message into 64-byte blocks. -/
def toBlocks (l : List Nat) : List (List Nat) := toBlocksAux l.length l

/-- Group bytes into big-endian 32-bit words. -/
def toWords : List Nat → List Nat
  | a :: b :: c :: d :: rest => (((a * 256 + b) * 256 + c) * 256 + d) :: toWords rest
  | _ => []

/-- Extend the 16-word message schedule by `n` further words. -/
def extendW : Nat → List Nat → List Nat
  | 0, w => w
  | n + 1, w =>
    let L := w.length
    let nw := (smallSigma1 (w.getD (L - 2) 0) + w.getD (L - 7) 0 +
               smallSigma0 (w.getD (L - 15) 0) + w.getD (L - 16) 0) % M32
    extendW n (w ++ [nw])

/-- One SHA-256 compression round, acting on the 8-word working state. -/
def shaRound (st : List Nat) (kw : Nat × Nat) : List Nat :=
  match st with
  | [a, b, c, d, e, f, g, h] =>
    let t1 := (h + bigSigma1 e + shaCh e f g + kw.1 + kw.2) % M32
    let t2 := (bigSigma0 a + shaMaj a b c) % M32
    [(t1 + t2) % M32, a, b, c, (d + t1) % M32, e, f, g]
  | other => other

/-- Process one 64-byte block: schedule, 64 rounds, add to the chain state. -/
def processBlock (h : List Nat) (block : List Nat) : List Nat :=
  let w := extendW 48 (toWords block)
  let st := (shaK.zip w).foldl shaRound h
  (h.zip st).map (fun p => (p.1 + p.2) % M32)

/-- hashlib.sha256(msg).digest() as a list of 32 byte values. -/
def sha256Bytes (msg : List Nat) : List Nat :=
  let hs := (toBlocks (padMessage msg)).foldl processBlock shaH0
  hs.foldr (fun w acc => be4 w ++ acc) []

/-- int.from_bytes(digest, "big") / int(hexdigest, 16): digest bytes as one
big-endian unsigned integer. -/
def bytesToNat (bs : List Nat) : Nat := bs.foldl (fun acc b => acc * 256 + b) 0

/-- hmac.new(secret, payload, hashlib.sha256).digest(). -/
def hmacSha256 (key msg : List Nat) : List Nat :=
  let k1 := if 64 < key.length then sha256Bytes key else key
  let k0 := k1 ++ List.replicate (64 - k1.length) 0
  let ipadK := k0.map (fun b => Nat.xor b 0x36)
  let opadK := k0.map (fun b => Nat.xor b 0x5c)
  sha256Bytes (opadK ++ sha256Bytes (ipadK ++ msg))

/-! ## Code strategies (strategies.py) -/

/-- strategies._safe_len: desired length from argument or config default,
clamped to [4, 32].  `cfgLen` models `settings.CODE_LENGTH` (8 by default). -/
def safe_len (cfgLen : Nat) (length : Option Nat) : Nat :=
  max 4 (min 32 (length.getD cfgLen))

/-- The payload hashed by the deterministic strategies:
`url` when `counter == 0`, else the f-string `url|counter`. -/
def strategyPayload (url : String) (counter : Nat) : String :=
  if counter = 0 then url else url ++ "|" ++ toString counter

/-- SHA256Strategy.generate: SHA-256 of the payload, digest as a big
unsigned integer, Base62-encode, truncate to the resolved length. -/
def sha256_generate (cfgLen : Nat) (url : String) (length : Option Nat) (counter : Nat) : String :=
  let L := safe_len cfgLen length
  pyTake (base62_encode_nat (bytesToNat (sha256Bytes (strBytes (strategyPayload url counter))))) L

/-- HMACSHA256Strategy.generate: as SHA256Strategy but keyed by `secret`. -/
def hmac_sha256_generate (secret : String) (cfgLen : Nat) (url : String)
    (length : Option Nat) (counter : Nat) : String :=
  let L := safe_len cfgLen length
  pyTake (base62_encode_nat (bytesToNat (hmacSha256 (strBytes secret)
    (strBytes (strategyPayload url counter))))) L

/-- RandomStrategy.generate: `L` independent draws from the alphabet;
the SystemRandom draws are modelled by the oracle `picks`, giving the
index drawn at each position.  When `length` is omitted the historical
default is 6. -/
def random_generate (picks : Nat → Fin 62) (cfgLen : Nat) (length : Option Nat) : String :=
  let L := match length with
    | some l => safe_len cfgLen (some l)
    | none => 6
  String.mk ((List.range L).map (fun i => b62digit (picks i).val))

/-- SequentialStrategy.generate: take the next counter value, Base62-encode,
left-pad with the zero digit to `minLength`, prepend the configured shard
tag `pfx`.  Returns the code and the advanced counter. -/
def sequential_generate (minLength : Nat) (pfx : String) (counter : Nat) : String × Nat :=
  let code := base62_encode_nat counter
  let code := if code.length < minLength then
    String.mk (List.replicate (minLength - code.length) '0' ++ code.data)
  else code
  let code := if pfx ≠ "" then pfx ++ code else code
  (code, counter + 1)

/-! ## In-memory storage (storage.py), as an insertion-ordered association list -/

/-- One value of the `self.slinks` dict: url, click counter, optional alias. -/
structure SlinkRecord where
  url : String
  clicks : Nat
  aliasOpt : Option String
deriving DecidableEq, Repr

/-- The `self.slinks` dict: key/value pairs in insertion order. -/
abbrev StorageState : Type := List (String × SlinkRecord)

/-- Dict read `self.slinks.get(code)`. -/
def get_slink (code : String) : StorageState → Option SlinkRecord
  | [] => none
  | (k, r) :: t => if k = code then some r else get_slink code t

/-- Dict write `self.slinks[code] = rec`: replace in place when the key
exists (insertion order is preserved), append otherwise. -/
def setSlink (code : String) (rec : SlinkRecord) : StorageState → StorageState
  | [] => [(code, rec)]
  | (k, r) :: t => if k = code then (code, rec) :: t else (k, r) :: setSlink code rec t

/-- Dict membership `code in self.slinks`. -/
def hasCode (code : String) : StorageState → Bool
  | [] => false
  | (k, _) :: t => if k = code then true else hasCode code t

/-- Second pass of Storage.alias_exists: some record stores this alias. -/
def hasAliasField (a : String) : StorageState → Bool
  | [] => false
  | (_, r) :: t => if r.aliasOpt = some a then true else hasAliasField a t

/-- Storage.alias_exists: the alias is used as a code or stored on a record. -/
def alias_exists (a : String) (s : StorageState) : Bool :=
  hasCode a s || hasAliasField a s

/-- Storage.save_slink.  Rejects an empty url, an alias already in use by a
different code, and a code already bound to a different url; otherwise
writes the record (preserving the click count of an existing record). -/
def save_slink (code url : String) (al : Option String) (s : StorageState) :
    Bool × StorageState :=
  if url = "" then (false, s)
  else if (match al with
    | some a => alias_exists a s && !(decide (code = a))
    | none => false) then (false, s)
  else match get_slink code s with
    | some ex =>
      if ex.url ≠ url then (false, s)
      else (true, setSlink code ⟨url, ex.clicks, al⟩ s)
    | none => (true, setSlink code ⟨url, 0, al⟩ s)

/-- Increment the clicks of the record stored under `code`. -/
def incAt (code : String) : StorageState → StorageState
  | [] => []
  | (k, r) :: t =>
    if k = code then (k, { r with clicks := r.clicks + 1 }) :: t
    else (k, r) :: incAt code t

/-- Storage.increment_click: false when the code is absent, else bump clicks. -/
def increment_click (code : String) (s : StorageState) : Bool × StorageState :=
  if hasCode code s then (true, incAt code s) else (false, s)

/-- Storage.find_code_by_url: scan in insertion order, return the first code
whose record maps to `url`. -/
def find_code_by_url (url : String) : StorageState → Option String
  | [] => none
  | (k, r) :: t => if r.url = url then some k else find_code_by_url url t

/-! ## Slink manager (slink_manager.py) -/

/-- The distinct ValueError conditions raised by create_slink, named after
the error taxonomy of the design. -/
inductive SlinkError where
  | invalidURLFormat
  | unreachableURL
  | invalidAlias
  | aliasTooLong
  | aliasConflict
  | persistenceFailure
deriving DecidableEq, Repr

/-- Oracles for the library/network calls of create_slink: `urlparse`-based
validity, localhost detection of the parsed hostname, and `_is_reachable`.
They are pure functions of the URL, matching the call-by-call determinism
of the embedding. -/
structure UrlEnv where
  validUrl : String → Bool
  hostIsLocal : String → Bool
  reachable : String → Bool

/-- Manager configuration: `min_length` and `max_extra` constructor args. -/
structure MgrCfg where
  minLength : Nat
  maxExtra : Nat

/-- Python truthiness of the optional alias argument (`if alias:`). -/
def aliasTruthy : Option String → Bool
  | none => false
  | some a => !(decide (a = ""))

/-- Base62Pattern.match: nonempty and alphabet-only. -/
def b62PatternMatch (a : String) : Bool :=
  !a.data.isEmpty && a.data.all isB62Char

/-- The collision-extension loop of create_slink: try the strategy at
`length + k` for successive `k`, accept the first candidate code that is
not occupied in storage; `none` when the loop exhausts its budget. -/
def extLoop (strat : String → Nat → String) (s : StorageState) (url : String)
    (length : Nat) : Nat → Nat → Option String
  | _, 0 => none
  | k, rem + 1 =>
    let cand := strat url (length + k)
    if get_slink cand s = none then some cand
    else extLoop strat s url length (k + 1) rem

/-- The salted fallback code of create_slink: SHA-256 of `url-existingUrl`,
Base62-encoded, sliced to `length + max_extra + 2`. -/
def saltedFallback (url existingUrl : String) (length maxExtra : Nat) : String :=
  pyTake (base62_encode_nat (bytesToNat (sha256Bytes (strBytes (url ++ "-" ++ existingUrl)))))
    (length + maxExtra + 2)

/-- SlinkManager.create_slink.  `strat` is the injected `code_strategy`
callable `(url, length) -> code`; errors are the ValueError raises of the
source in order. -/
def create_slink (env : UrlEnv) (cfg : MgrCfg) (strat : String → Nat → String)
    (s : StorageState) (url : String) (al : Option String) (checkReachable : Bool) :
    Except SlinkError (String × StorageState) :=
  if env.validUrl url = false then Except.error SlinkError.invalidURLFormat
  else if (checkReachable || env.hostIsLocal url) && !env.reachable url then
    Except.error SlinkError.unreachableURL
  else if checkReachable && !env.reachable url then
    Except.error SlinkError.unreachableURL
  else if aliasTruthy al then
    let a := al.getD ""
    if b62PatternMatch a = false then Except.error SlinkError.invalidAlias
    else if 32 < a.length then Except.error SlinkError.aliasTooLong
    else match get_slink a s with
      | some existing =>
        if existing.url = url then Except.ok (a, s)
        else Except.error SlinkError.aliasConflict
      | none =>
        let res := save_slink a url (some a) s
        if res.1 then Except.ok (a, res.2)
        else Except.error SlinkError.persistenceFailure
  else match find_code_by_url url s with
    | some existingCode => Except.ok (existingCode, s)
    | none =>
      let length := cfg.minLength
      let code0 := strat url length
      match get_slink code0 s with
      | none =>
        let res := save_slink code0 url none s
        if res.1 then Except.ok (code0, res.2)
        else Except.error SlinkError.persistenceFailure
      | some existing =>
        if existing.url = url then Except.ok (code0, s)
        else
          let code := match extLoop strat s url length 1 cfg.maxExtra with
            | some cand => cand
            | none => saltedFallback url existing.url length cfg.maxExtra
          let res := save_slink code url none s
          if res.1 then Except.ok (code, res.2)
          else Except.error SlinkError.persistenceFailure

/-! ## Storage lemmas -/

theorem get_slink_setSlink_self (code : String) (rec : SlinkRecord) (s : StorageState) :
    get_slink code (setSlink code rec s) = some rec := by
  induction s with
  | nil => simp [setSlink, get_slink]
  | cons e t ih =>
    obtain ⟨k, r⟩ := e
    by_cases hk : k = code
    · simp [setSlink, hk, get_slink]
    · simp [setSlink, hk, get_slink, ih]

theorem get_slink_setSlink_other (code c2 : String) (rec : SlinkRecord) (s : StorageState)
    (h : c2 ≠ code) : get_slink c2 (setSlink code rec s) = get_slink c2 s := by
  have h2 : code ≠ c2 := Ne.symm h
  induction s with
  | nil => simp [setSlink, get_slink, h2]
  | cons e t ih =>
    obtain ⟨k, r⟩ := e
    by_cases hk : k = code
    · subst hk
      simp [setSlink, get_slink, h2]
    · simp only [setSlink, if_neg hk, get_slink]
      by_cases hk2 : k = c2
      · simp [hk2]
      · simp [hk2, ih]

theorem setSlink_append (code : String) (rec : SlinkRecord) (s : StorageState)
    (h : get_slink code s = none) : setSlink code rec s = s ++ [(code, rec)] := by
  induction s with
  | nil => simp [setSlink]
  | cons e t ih =>
    obtain ⟨k, r⟩ := e
    simp only [get_slink] at h
    by_cases hk : k = code
    · rw [if_pos hk] at h
      exact absurd h (by simp)
    · rw [if_neg hk] at h
      simp only [setSlink, if_neg hk, List.cons_append, List.cons.injEq, true_and]
      exact ih h

theorem find_code_by_url_append (url : String) (s l : StorageState)
    (h : find_code_by_url url s = none) :
    find_code_by_url url (s ++ l) = find_code_by_url url l := by
  induction s with
  | nil => simp
  | cons e t ih =>
    obtain ⟨k, r⟩ := e
    simp only [find_code_by_url] at h ⊢
    by_cases hu : r.url = url
    · rw [if_pos hu] at h
      exact absurd h (by simp)
    · rw [if_neg hu] at h ⊢
      exact ih h

theorem find_code_by_url_append_some (url c : String) (s l : StorageState)
    (h : find_code_by_url url s = some c) :
    find_code_by_url url (s ++ l) = some c := by
  induction s with
  | nil => simp [find_code_by_url] at h
  | cons e t ih =>
    obtain ⟨k, r⟩ := e
    simp only [find_code_by_url] at h ⊢
    by_cases hu : r.url = url
    · rw [if_pos hu] at h ⊢
      exact h
    · rw [if_neg hu] at h ⊢
      exact ih h

theorem find_code_by_url_none_get (url code : String) (s : StorageState) (ex : SlinkRecord)
    (hf : find_code_by_url url s = none) (hg : get_slink code s = some ex) :
    ex.url ≠ url := by
  induction s with
  | nil => simp [get_slink] at hg
  | cons e t ih =>
    obtain ⟨k, r⟩ := e
    simp only [find_code_by_url] at hf
    simp only [get_slink] at hg
    by_cases hu : r.url = url
    · rw [if_pos hu] at hf
      exact absurd hf (by simp)
    · rw [if_neg hu] at hf
      by_cases hk : k = code
      · rw [if_pos hk] at hg
        cases hg
        exact hu
      · rw [if_neg hk] at hg
        exact ih hf hg

/-! ## Claim C10: failure atomicity of save_slink and increment_click -/

/-- C10.  Whenever `save_slink` returns `False` or `increment_click`
returns `False`, the storage state is exactly unchanged: no record is
added, removed, or modified by the failed call. -/
theorem c10_failure_atomicity (code url : String) (al : Option String) (s : StorageState) :
    ((save_slink code url al s).1 = false → (save_slink code url al s).2 = s) ∧
    ((increment_click code s).1 = false → (increment_click code s).2 = s) := by
  constructor
  · unfold save_slink
    split
    · intro _
      rfl
    · split
      · intro _
        rfl
      · split
        · split
          · intro _
            rfl
          · intro h
            simp at h
        · intro h
          simp at h
  · unfold increment_click
    split
    · intro h
      simp at h
    · intro _
      rfl

/-- Witness for C10 at a concrete failing input: saving with an empty URL
and incrementing an absent code both leave the empty store empty. -/
theorem c10_failure_atomicity_witness :
    (save_slink "c" "" none []).2 = [] ∧ (increment_click "c" []).2 = [] :=
  ⟨(c10_failure_atomicity "c" "" none []).1 (by decide),
   (c10_failure_atomicity "c" "" none []).2 (by decide)⟩

/-! ## Claim C2: exact characterization of save_slink failure -/

/-- Modelled from the claim's words, for comparison with the source: the
conditions under which the claim says `SaveSlink` returns false — the code
is already bound to a different url, the alias is already bound elsewhere
(on a record with a different code) to a different url, or the url is
empty. -/
def claimSaveFalseCond (code url : String) (al : Option String) (s : StorageState) : Bool :=
  decide (url = "") ||
  (match get_slink code s with
   | some r => decide (r.url ≠ url)
   | none => false) ||
  (match al with
   | some a => s.any (fun e =>
       (decide (e.1 = a) || decide (e.2.aliasOpt = some a)) &&
       decide (e.1 ≠ code) && decide (e.2.url ≠ url))
   | none => false)

/-- Counterexample to C2: the store binds alias "a" on record "x" to the
very same url "u" being saved; none of the claim's three false-conditions
holds, yet `save_slink "c" "u" (alias "a")` returns false, because the
source rejects an alias in use by any other record regardless of that
record's url. -/
theorem c2_counterexample :
    (save_slink "c" "u" (some "a")
      [("x", ⟨"u", 0, some "a"⟩)]).1 = false ∧
    claimSaveFalseCond "c" "u" (some "a")
      [("x", ⟨"u", 0, some "a"⟩)] = false := by
  decide

/-- C2 amended: `save_slink` returns false exactly when the url is empty,
or the alias is provided and already in use by the store (as a code or as
a stored alias value) under a code different from the alias itself —
regardless of which url that record maps to — or the code is already
bound to a different url; in every other case it returns true.  It never
raises (it is a total function). -/
theorem c2_save_false_iff (code url : String) (al : Option String) (s : StorageState) :
    (save_slink code url al s).1 = false ↔
      (url = "" ∨
       (∃ a, al = some a ∧ alias_exists a s = true ∧ code ≠ a) ∨
       (∃ r, get_slink code s = some r ∧ r.url ≠ url)) := by
  unfold save_slink
  split
  next hurl =>
    simp [hurl]
  next hurl =>
    split
    next hal =>
      constructor
      · intro _
        refine Or.inr (Or.inl ?_)
        match al, hal with
        | some a, hal =>
          simp only [Bool.and_eq_true, Bool.not_eq_true', decide_eq_false_iff_not] at hal
          exact ⟨a, rfl, hal.1, hal.2⟩
      · intro _
        rfl
    next hal =>
      split
      next ex hex =>
        split
        next hne =>
          constructor
          · intro _
            exact Or.inr (Or.inr ⟨ex, hex, hne⟩)
          · intro _
            rfl
        next hne =>
          constructor
          · intro h
            exact absurd h (by simp)
          · intro hrhs
            exfalso
            rcases hrhs with hurl2 | ⟨a, ha, hex2, hnea⟩ | ⟨r, hr, hrne⟩
            · exact hurl hurl2
            · subst ha
              simp [hex2, hnea] at hal
            · rw [hex] at hr
              cases hr
              exact hrne (by simpa using hne)
      next hex =>
        constructor
        · intro h
          exact absurd h (by simp)
        · intro hrhs
          exfalso
          rcases hrhs with hurl2 | ⟨a, ha, hex2, hnea⟩ | ⟨r, hr, hrne⟩
          · exact hurl hurl2
          · subst ha
            simp [hex2, hnea] at hal
          · rw [hex] at hr
            exact absurd hr (by simp)

/-! ## Claim C3: idempotent re-save -/

/-- Counterexample to C3: record "c" maps url "u" with alias "b"; the
re-save `save_slink "c" "u" None` succeeds but overwrites the stored
alias field with the new argument (None), so the record is not left
exactly as before the call. -/
theorem c3_counterexample :
    (save_slink "c" "u" none [("c", ⟨"u", 5, some "b"⟩)]).1 = true ∧
    get_slink "c" (save_slink "c" "u" none [("c", ⟨"u", 5, some "b"⟩)]).2 =
      some ⟨"u", 5, none⟩ ∧
    (⟨"u", 5, none⟩ : SlinkRecord) ≠ ⟨"u", 5, some "b"⟩ := by
  decide

/-- C3 amended: re-saving a stored record with the same url succeeds
exactly under the source's alias-uniqueness check — the alias argument is
absent, equals the code itself, or is not in use anywhere in the store,
where "in use" counts even this record's own stored alias value (so
re-saving a record together with its own current alias fails) — and a
successful re-save preserves the record's url and click count and every
other record while overwriting the record's alias field with the alias
argument of the call; and every save of code c with a url different from
the stored one fails and leaves the store exactly unchanged, so a record
is never silently overwritten with a different url. -/
theorem c3_idempotent_resave (s : StorageState) (c u : String) (rec : SlinkRecord)
    (a2 : Option String)
    (hget : get_slink c s = some rec) (hurl : rec.url = u) (hne : u ≠ "")
    (hal : a2 = none ∨ ∃ a, a2 = some a ∧ (alias_exists a s = false ∨ c = a)) :
    save_slink c u a2 s = (true, setSlink c ⟨u, rec.clicks, a2⟩ s) ∧
    get_slink c (setSlink c ⟨u, rec.clicks, a2⟩ s) = some ⟨u, rec.clicks, a2⟩ ∧
    (∀ c2, c2 ≠ c → get_slink c2 (setSlink c ⟨u, rec.clicks, a2⟩ s) = get_slink c2 s) ∧
    (∀ u2 a3, u2 ≠ u → save_slink c u2 a3 s = (false, s)) := by
  refine ⟨?_, get_slink_setSlink_self c _ s, fun c2 hc2 => get_slink_setSlink_other c c2 _ s hc2,
    ?_⟩
  case refine_2 =>
    intro u2 a3 hu2
    have hne2 : rec.url ≠ u2 := by
      rw [hurl]
      exact Ne.symm hu2
    unfold save_slink
    split
    next => rfl
    next =>
      split
      next => rfl
      next =>
        split
        next ex hex =>
          rw [hget] at hex
          cases hex
          rw [if_pos hne2]
        next hex =>
          rw [hget] at hex
          exact absurd hex (by simp)
  unfold save_slink
  split
  next hurl2 => exact absurd hurl2 hne
  next =>
    split
    next hmatch =>
      exfalso
      rcases hal with rfl | ⟨a, rfl, hcase⟩
      · simp at hmatch
      · rcases hcase with hfalse | rfl
        · simp [hfalse] at hmatch
        · simp at hmatch
    next =>
      split
      next ex hex =>
        rw [hget] at hex
        cases hex
        split
        next hneq => exact absurd hurl hneq
        next => rfl
      next hex =>
        rw [hget] at hex
        exact absurd hex (by simp)

/-- Witness for C3's amended theorem: re-saving the single record of a
concrete store with a fresh alias value succeeds and only the alias field
changes, and re-saving the same code with a different url fails with the
store unchanged. -/
theorem c3_idempotent_resave_witness :
    save_slink "c" "u" (some "z") [("c", ⟨"u", 5, some "b"⟩)] =
      (true, [("c", ⟨"u", 5, some "z"⟩)]) ∧
    get_slink "c" [("c", ⟨"u", 5, some "z"⟩)] = some ⟨"u", 5, some "z"⟩ ∧
    save_slink "c" "u2" none [("c", ⟨"u", 5, some "b"⟩)] =
      (false, [("c", ⟨"u", 5, some "b"⟩)]) := by
  have h := c3_idempotent_resave [("c", ⟨"u", 5, some "b"⟩)] "c" "u" ⟨"u", 5, some "b"⟩
    (some "z") (by decide) (by decide) (by decide)
    (Or.inr ⟨"z", rfl, Or.inl (by decide)⟩)
  exact ⟨h.1, h.2.1, h.2.2.2 "u2" none (by decide)⟩

/-! ## Base62 encoder lemmas and claims C8, C9 -/

theorem b62DigitsAux_eq : ∀ (fuel n : Nat), n ≤ fuel →
    b62DigitsAux fuel n = (Nat.digits 62 n).map b62digit
  | _, 0, _ => by simp [b62DigitsAux]
  | 0, n + 1, h => absurd h (by omega)
  | fuel + 1, n + 1, h => by
    have hdiv : (n + 1) / 62 ≤ fuel := by
      have := Nat.div_lt_self (Nat.succ_pos n) (by decide : 1 < 62)
      omega
    rw [show b62DigitsAux (fuel + 1) (n + 1) =
          b62digit ((n + 1) % 62) :: b62DigitsAux fuel ((n + 1) / 62) from rfl,
      b62DigitsAux_eq fuel ((n + 1) / 62) hdiv,
      Nat.digits_def' (by decide : (1 : Nat) < 62) (Nat.succ_pos n), List.map_cons]

theorem b62Digits_eq_digits (n : Nat) : b62Digits n = (Nat.digits 62 n).map b62digit :=
  b62DigitsAux_eq n n (Nat.le_refl n)

theorem b62digit_eq_zero_iff (d : Nat) (hd : d < 62) : b62digit d = '0' ↔ d = 0 := by
  have H : ∀ d2 ∈ List.range 62, (b62digit d2 = '0' ↔ d2 = 0) := by decide
  exact H d (List.mem_range.mpr hd)

theorem fdiv62_neg (num : Int) (h : num < 0) : Int.fdiv num 62 < 0 := by
  match num with
  | Int.ofNat m => exact absurd h (by simp)
  | Int.negSucc m =>
    have e : Int.fdiv (Int.negSucc m) 62 = Int.negSucc (m / 62) := rfl
    rw [e]
    exact Int.negSucc_lt_zero _

theorem manager_b62_digits_neg : ∀ (fuel : Nat) (num : Int), num < 0 →
    manager_b62_digits fuel num = none
  | 0, num, h => by
    unfold manager_b62_digits
    rw [if_neg (by omega)]
  | fuel + 1, num, h => by
    unfold manager_b62_digits
    rw [if_neg (by omega), manager_b62_digits_neg fuel _ (fdiv62_neg num h)]
    rfl

theorem manager_b62_digits_ofNat : ∀ (fuel n : Nat), n ≤ fuel →
    manager_b62_digits fuel (Int.ofNat n) = some ((Nat.digits 62 n).map b62digit)
  | fuel, 0, _ => by cases fuel <;> simp [manager_b62_digits]
  | 0, n + 1, h => absurd h (by omega)
  | fuel + 1, n + 1, h => by
    have hdiv : (n + 1) / 62 ≤ fuel := by
      have := Nat.div_lt_self (Nat.succ_pos n) (by decide : 1 < 62)
      omega
    have hne0 : ¬(Int.ofNat (n + 1) = 0) := by
      intro hh
      cases hh
    have hfd : (Int.ofNat (n + 1)).fdiv 62 = Int.ofNat ((n + 1) / 62) :=
      (Int.ofNat_fdiv (n + 1) 62).symm
    have hfm : (Int.ofNat (n + 1)).fmod 62 = Int.ofNat ((n + 1) % 62) :=
      (Int.ofNat_fmod (n + 1) 62).symm
    unfold manager_b62_digits
    rw [if_neg hne0]
    simp only [hfd, hfm, manager_b62_digits_ofNat fuel ((n + 1) / 62) hdiv, Option.map_some']
    rw [Nat.digits_def' (by decide : (1 : Nat) < 62) (Nat.succ_pos n), List.map_cons]
    rfl

/-- C8.  Base62 encoder correctness: Encode(0) = "0" (not empty),
Encode(61) = "Z", Encode(62) = "10"; for n > 0 the encoding is exactly the
base-62 digit expansion of n (Mathlib's minimal-length `Nat.digits`
representation), most significant digit first with no leading zero-digit
padding; and the manager's own encoder agrees with the strategies-module
encoder on every non-negative input (given enough loop fuel). -/
theorem c8_base62_correct :
    base62_encode_nat 0 = "0" ∧ base62_encode_nat 61 = "Z" ∧ base62_encode_nat 62 = "10" ∧
    (∀ n : Nat, 0 < n →
      (base62_encode_nat n).data = ((Nat.digits 62 n).map b62digit).reverse ∧
      ∀ c, (base62_encode_nat n).data.head? = some c → c ≠ '0') ∧
    (∀ n : Nat, manager_base62_encode (n + 1) (Int.ofNat n) = some (base62_encode_nat n)) := by
  refine ⟨by decide, by decide, by decide, ?_, ?_⟩
  · intro n hn
    have hne : n ≠ 0 := Nat.pos_iff_ne_zero.mp hn
    have hdata : (base62_encode_nat n).data = ((Nat.digits 62 n).map b62digit).reverse := by
      unfold base62_encode_nat
      rw [if_neg hne, b62Digits_eq_digits]
    refine ⟨hdata, ?_⟩
    intro c hc
    rw [hdata, List.head?_reverse, List.getLast?_map] at hc
    have hnil : Nat.digits 62 n ≠ [] := Nat.digits_ne_nil_iff_ne_zero.mpr hne
    rw [List.getLast?_eq_getLast_of_ne_nil hnil] at hc
    simp only [Option.map_some', Option.some.injEq] at hc
    have hlast_ne : (Nat.digits 62 n).getLast hnil ≠ 0 := Nat.getLast_digit_ne_zero 62 hne
    have hlast_lt : (Nat.digits 62 n).getLast hnil < 62 :=
      Nat.digits_lt_base (by decide) (List.getLast_mem hnil)
    intro hzero
    rw [← hc] at hzero
    exact hlast_ne ((b62digit_eq_zero_iff _ hlast_lt).mp hzero)
  · intro n
    by_cases h : n = 0
    · subst h
      decide
    · unfold manager_base62_encode base62_encode_nat
      rw [if_neg (show ¬(Int.ofNat n = 0) by simpa using h), if_neg h,
        manager_b62_digits_ofNat (n + 1) n (by omega), b62Digits_eq_digits]
      rfl

/-- Witness for C8's hypothesis at n = 62. -/
theorem c8_base62_correct_witness :
    (base62_encode_nat 62).data = ((Nat.digits 62 62).map b62digit).reverse :=
  (c8_base62_correct.2.2.2.1 62 (by decide)).1

/-- C9.  The strategies-module encoder `_base62_encode` rejects every
negative input with an explicit ValueError and returns a string for every
non-negative input.  The manager's `base62_encode`, however, has no
negativity guard: on every negative input its `while num:` loop (Python
floor divmod keeps the value negative forever) never terminates — the
fuel-bounded model returns none at every fuel, so it neither returns a
value nor raises, contradicting the claim for that encoder. -/
theorem c9_negative_input_rejection :
    (∀ n : Int, n < 0 →
      base62_encode n = Except.error "num must be non-negative" ∧
      ∀ fuel, manager_base62_encode fuel n = none) ∧
    (∀ n : Int, 0 ≤ n → base62_encode n = Except.ok (base62_encode_nat n.toNat)) := by
  constructor
  · intro n hn
    constructor
    · unfold base62_encode
      rw [if_pos hn]
    · intro fuel
      unfold manager_base62_encode
      rw [if_neg (by omega), manager_b62_digits_neg fuel n hn]
      rfl
  · intro n hn
    unfold base62_encode
    rw [if_neg (by omega)]

/-- Witness for C9 at the failing input -1 (and at 5 for the non-negative
side). -/
theorem c9_negative_input_rejection_witness :
    base62_encode (-1) = Except.error "num must be non-negative" ∧
    manager_base62_encode 1000 (-1) = none ∧
    base62_encode 5 = Except.ok (base62_encode_nat (5 : Int).toNat) :=
  ⟨(c9_negative_input_rejection.1 (-1) (by decide)).1,
   (c9_negative_input_rejection.1 (-1) (by decide)).2 1000,
   c9_negative_input_rejection.2 5 (by decide)⟩

theorem find_setSlink_same_url (u cd : String) (rec : SlinkRecord) (s : StorageState)
    (ex : SlinkRecord) (hget : get_slink cd s = some ex) (hurl : rec.url = ex.url) :
    find_code_by_url u (setSlink cd rec s) = find_code_by_url u s := by
  induction s with
  | nil => simp [get_slink] at hget
  | cons e t ih =>
    obtain ⟨k, r⟩ := e
    simp only [get_slink] at hget
    by_cases hk : k = cd
    · rw [if_pos hk] at hget
      cases hget
      subst hk
      simp only [setSlink, if_pos rfl, find_code_by_url, hurl]
    · rw [if_neg hk] at hget
      simp only [setSlink, if_neg hk, find_code_by_url]
      by_cases hu : r.url = u
      · rw [if_pos hu, if_pos hu]
      · rw [if_neg hu, if_neg hu]
        exact ih hget

theorem find_incAt (u cd : String) (s : StorageState) :
    find_code_by_url u (incAt cd s) = find_code_by_url u s := by
  induction s with
  | nil => rfl
  | cons e t ih =>
    obtain ⟨k, r⟩ := e
    by_cases hk : k = cd
    · simp only [incAt, if_pos hk, find_code_by_url]
    · simp only [incAt, if_neg hk, find_code_by_url]
      by_cases hu : r.url = u
      · rw [if_pos hu, if_pos hu]
      · rw [if_neg hu, if_neg hu]
        exact ih

theorem save_true_find (u cd : String) (al2 : Option String) (s s2 : StorageState)
    (hf : find_code_by_url u s = none) (hs : save_slink cd u al2 s = (true, s2)) :
    find_code_by_url u s2 = some cd := by
  unfold save_slink at hs
  split at hs
  · exact absurd (congrArg Prod.fst hs) (by simp)
  · split at hs
    · exact absurd (congrArg Prod.fst hs) (by simp)
    · split at hs
      next ex hget =>
        split at hs
        next hne => exact absurd (congrArg Prod.fst hs) (by simp)
        next hne =>
          exact absurd (by simpa using hne : ex.url = u)
            (find_code_by_url_none_get u cd s ex hf hget)
      next hget =>
        cases hs
        rw [setSlink_append cd _ s hget, find_code_by_url_append u s _ hf]
        simp [find_code_by_url]

theorem find_preserved_save (u c cd url2 : String) (al2 : Option String) (s : StorageState)
    (hf : find_code_by_url u s = some c) :
    find_code_by_url u (save_slink cd url2 al2 s).2 = some c := by
  unfold save_slink
  split
  · exact hf
  · split
    · exact hf
    · split
      next ex hget =>
        split
        next => exact hf
        next hne =>
          simp only
          rw [find_setSlink_same_url u cd _ s ex hget (not_not.mp hne).symm]
          exact hf
      next hget =>
        simp only
        rw [setSlink_append cd _ s hget, find_code_by_url_append_some u c s _ hf]

theorem find_preserved_inc (u c cd : String) (s : StorageState)
    (hf : find_code_by_url u s = some c) :
    find_code_by_url u (increment_click cd s).2 = some c := by
  unfold increment_click
  split
  · simp only
    rw [find_incAt]
    exact hf
  · exact hf

theorem create_state_shape (env : UrlEnv) (cfg : MgrCfg) (strat : String → Nat → String)
    (s : StorageState) (u : String) (al : Option String) (cr : Bool)
    (c : String) (s' : StorageState)
    (h : create_slink env cfg strat s u al cr = Except.ok (c, s')) :
    s' = s ∨ ∃ cd url2 al2, save_slink cd url2 al2 s = (true, s') := by
  unfold create_slink at h
  simp only [] at h
  split at h
  · exact absurd h (by simp)
  · split at h
    · exact absurd h (by simp)
    · split at h
      · exact absurd h (by simp)
      · split at h
        · -- alias branch
          split at h
          · exact absurd h (by simp)
          · split at h
            · exact absurd h (by simp)
            · split at h
              · split at h
                · cases h
                  exact Or.inl rfl
                · exact absurd h (by simp)
              · split at h
                next hres =>
                  cases h
                  exact Or.inr ⟨al.getD "", u, some (al.getD ""),
                    by rw [← hres]⟩
                next => exact absurd h (by simp)
        · -- no-alias branch
          split at h
          next => cases h; exact Or.inl rfl
          next =>
            split at h
            · split at h
              next hres =>
                cases h
                exact Or.inr ⟨strat u cfg.minLength, u, none, by rw [← hres]⟩
              next => exact absurd h (by simp)
            · split at h
              · cases h
                exact Or.inl rfl
              · split at h
                next hres =>
                  cases h
                  exact Or.inr ⟨_, u, none, by rw [← hres]⟩
                next => exact absurd h (by simp)

theorem create_ok_checks (env : UrlEnv) (cfg : MgrCfg) (strat : String → Nat → String)
    (s : StorageState) (u : String) (al : Option String) (cr : Bool)
    (c : String) (s' : StorageState)
    (h : create_slink env cfg strat s u al cr = Except.ok (c, s')) :
    env.validUrl u = true ∧ ((cr || env.hostIsLocal u) && !env.reachable u) = false ∧
      (cr && !env.reachable u) = false := by
  unfold create_slink at h
  split at h
  next hv => exact absurd h (by simp)
  next hv =>
    split at h
    next hg => exact absurd h (by simp)
    next hg =>
      split at h
      next hg2 => exact absurd h (by simp)
      next hg2 =>
        exact ⟨by simpa using hv, by simpa using hg, by simpa using hg2⟩

theorem create_ok_noalias_find (env : UrlEnv) (cfg : MgrCfg) (strat : String → Nat → String)
    (s : StorageState) (u : String) (c : String) (s' : StorageState)
    (h : create_slink env cfg strat s u none false = Except.ok (c, s')) :
    find_code_by_url u s' = some c := by
  unfold create_slink at h
  simp only [] at h
  split at h
  · exact absurd h (by simp)
  · split at h
    · exact absurd h (by simp)
    · split at h
      · exact absurd h (by simp)
      · split at h
        next htr => simp [aliasTruthy] at htr
        next =>
          split at h
          next c0 hfind =>
            cases h
            exact hfind
          next hfind =>
            split at h
            next hget =>
              split at h
              next hres =>
                cases h
                have hs : save_slink (strat u cfg.minLength) u none s =
                    (true, (save_slink (strat u cfg.minLength) u none s).2) := by
                  rw [← hres]
                exact save_true_find u (strat u cfg.minLength) none s _ hfind hs
              next => exact absurd h (by simp)
            next existing hget =>
              split at h
              next hurl =>
                exact absurd hurl (find_code_by_url_none_get u _ s existing hfind hget)
              next hurl =>
                split at h
                next hres =>
                  cases h
                  have hs := hres
                  exact save_true_find u _ none s _ hfind (by rw [← hres])
                next => exact absurd h (by simp)

inductive StoreStep (env : UrlEnv) (cfg : MgrCfg) : StorageState → StorageState → Prop where
  | save : ∀ (code url2 : String) (al2 : Option String) (s : StorageState),
      StoreStep env cfg s (save_slink code url2 al2 s).2
  | inc : ∀ (code : String) (s : StorageState), StoreStep env cfg s (increment_click code s).2
  | create : ∀ (strat : String → Nat → String) (url2 : String) (al2 : Option String)
      (cr : Bool) (s : StorageState) (c2 : String) (s2 : StorageState),
      create_slink env cfg strat s url2 al2 cr = Except.ok (c2, s2) → StoreStep env cfg s s2

def StoreReach (env : UrlEnv) (cfg : MgrCfg) : StorageState → StorageState → Prop :=
  Relation.ReflTransGen (StoreStep env cfg)

theorem find_preserved_step (env : UrlEnv) (cfg : MgrCfg) (u c : String)
    (s1 s2 : StorageState) (hstep : StoreStep env cfg s1 s2)
    (hf : find_code_by_url u s1 = some c) : find_code_by_url u s2 = some c := by
  cases hstep with
  | save code url2 al2 s => exact find_preserved_save u c code url2 al2 s1 hf
  | inc code s => exact find_preserved_inc u c code s1 hf
  | create strat url2 al2 cr s c2 s2 hok =>
    rcases create_state_shape env cfg strat s1 url2 al2 cr c2 s2 hok with
      rfl | ⟨cd, u2, a2, hsave⟩
    · exact hf
    · have hp := find_preserved_save u c cd u2 a2 s1 hf
      rw [hsave] at hp
      exact hp

theorem find_preserved_reach (env : UrlEnv) (cfg : MgrCfg) (u c : String)
    (s1 s2 : StorageState) (hr : StoreReach env cfg s1 s2)
    (hf : find_code_by_url u s1 = some c) : find_code_by_url u s2 = some c := by
  induction hr with
  | refl => exact hf
  | tail hab hbc ih => exact find_preserved_step env cfg u c _ _ hbc ih

/-- C1.  Idempotency by URL: after a successful no-alias create of url u
returns code c, every later no-alias create of the exact same u — on the
resulting state or on any state reachable from it by further storage
operations (saves, click increments, other creates) — returns the same
code c and leaves the state unchanged: the manager finds the existing
record by URL and returns its code instead of creating a new mapping. -/
theorem c1_url_idempotency (env : UrlEnv) (cfg : MgrCfg) (strat : String → Nat → String)
    (s : StorageState) (u c : String) (s' s'' : StorageState)
    (h : create_slink env cfg strat s u none false = Except.ok (c, s'))
    (hr : StoreReach env cfg s' s'') :
    create_slink env cfg strat s'' u none false = Except.ok (c, s'') := by
  obtain ⟨hv, hg, -⟩ := create_ok_checks env cfg strat s u none false c s' h
  have hfind : find_code_by_url u s'' = some c :=
    find_preserved_reach env cfg u c s' s'' hr
      (create_ok_noalias_find env cfg strat s u c s' h)
  unfold create_slink
  simp only [hv, hg, aliasTruthy, hfind, Bool.true_eq_false, Bool.false_eq_true,
    Bool.false_and, if_false]

def envAllT : UrlEnv := ⟨fun _ => true, fun _ => false, fun _ => true⟩

def stratFix : String → Nat → String := fun _ _ => "abcd1234"

def cfg84 : MgrCfg := ⟨8, 4⟩

/-- Witness for C1: a concrete first create on the empty store, repeated
on the resulting store (reflexive reachability). -/
theorem c1_url_idempotency_witness :
    create_slink envAllT cfg84 stratFix
      [("abcd1234", ⟨"https://example.com", 0, none⟩)] "https://example.com" none false =
    Except.ok ("abcd1234", [("abcd1234", ⟨"https://example.com", 0, none⟩)]) :=
  c1_url_idempotency envAllT cfg84 stratFix [] "https://example.com" "abcd1234"
    [("abcd1234", ⟨"https://example.com", 0, none⟩)]
    [("abcd1234", ⟨"https://example.com", 0, none⟩)]
    (by rfl) Relation.ReflTransGen.refl

theorem save_true_get (cd u : String) (al2 : Option String) (s s2 : StorageState)
    (hs : save_slink cd u al2 s = (true, s2)) :
    ∃ clk, get_slink cd s2 = some ⟨u, clk, al2⟩ := by
  unfold save_slink at hs
  split at hs
  · exact absurd (congrArg Prod.fst hs) (by simp)
  · split at hs
    · exact absurd (congrArg Prod.fst hs) (by simp)
    · split at hs
      next ex hget =>
        split at hs
        next => exact absurd (congrArg Prod.fst hs) (by simp)
        next =>
          cases hs
          exact ⟨ex.clicks, get_slink_setSlink_self cd _ s⟩
      next hget =>
        cases hs
        exact ⟨0, get_slink_setSlink_self cd _ s⟩

theorem create_alias_ok (env : UrlEnv) (cfg : MgrCfg) (strat : String → Nat → String)
    (s : StorageState) (u A r : String) (s' : StorageState) (hA : A ≠ "")
    (h : create_slink env cfg strat s u (some A) false = Except.ok (r, s')) :
    r = A ∧ b62PatternMatch A = true ∧ A.length ≤ 32 ∧
    ∃ rec, get_slink A s' = some rec ∧ rec.url = u := by
  unfold create_slink at h
  simp only [] at h
  split at h
  · exact absurd h (by simp)
  · split at h
    · exact absurd h (by simp)
    · split at h
      · exact absurd h (by simp)
      · split at h
        next htr =>
          simp only [Option.getD_some] at h
          split at h
          next hpat => exact absurd h (by simp)
          next hpat =>
            split at h
            next hlen => exact absurd h (by simp)
            next hlen =>
              split at h
              next existing hget =>
                split at h
                next hurl =>
                  cases h
                  exact ⟨rfl, by simpa using hpat, by omega, existing, hget, hurl⟩
                next hurl => exact absurd h (by simp)
              next hget =>
                split at h
                next hres =>
                  cases h
                  obtain ⟨clk, hget2⟩ := save_true_get A u (some A) s _ (by rw [← hres])
                  exact ⟨rfl, by simpa using hpat, by omega, ⟨u, clk, some A⟩, hget2, rfl⟩
                next => exact absurd h (by simp)
        next htr =>
          exact absurd (by simp [aliasTruthy, hA] : aliasTruthy (some A) = true) htr

/-- C4.  Alias idempotency and conflict: a successful
`create_slink(u, alias=A)` (A nonempty, since Python treats an empty alias
as absent) returns A, calling it again with the same (u, A) returns A and
changes nothing, and calling it with the same A but a different valid
url2 fails with the AliasConflict error. -/
theorem c4_alias_idempotency_conflict (env : UrlEnv) (cfg : MgrCfg)
    (strat : String → Nat → String) (s : StorageState) (u u2 A r : String)
    (s' : StorageState) (hA : A ≠ "")
    (h : create_slink env cfg strat s u (some A) false = Except.ok (r, s'))
    (hv2 : env.validUrl u2 = true) (hl2 : env.hostIsLocal u2 = false) (hne : u2 ≠ u) :
    r = A ∧
    create_slink env cfg strat s' u (some A) false = Except.ok (A, s') ∧
    create_slink env cfg strat s' u2 (some A) false =
      Except.error SlinkError.aliasConflict := by
  obtain ⟨hv, hg, -⟩ := create_ok_checks env cfg strat s u (some A) false r s' h
  obtain ⟨hr, hpat, hlen, rec, hget, hurl⟩ :=
    create_alias_ok env cfg strat s u A r s' hA h
  have htr : aliasTruthy (some A) = true := by simp [aliasTruthy, hA]
  have hpat' : (b62PatternMatch A = false) = False := by simp [hpat]
  have hlen' : (32 < A.length) = False := eq_false (by omega)
  refine ⟨hr, ?_, ?_⟩
  · unfold create_slink
    simp only [hv, hg, htr, hpat', hlen', Option.getD_some, Bool.true_eq_false,
      Bool.false_eq_true, Bool.false_and, if_false, if_true, hget, hurl]
  · unfold create_slink
    have hurl2 : (rec.url = u2) = False := eq_false (by rw [hurl]; exact fun hh => hne hh.symm)
    simp only [hv2, hl2, hg, htr, hpat', hlen', Option.getD_some, Bool.true_eq_false,
      Bool.false_eq_true, Bool.false_and, Bool.false_or, Bool.and_self, if_false, if_true,
      hget, hurl2]

theorem extLoop_none_all (strat : String → Nat → String) (s : StorageState) (url : String)
    (L : Nat) : ∀ (k rem : Nat), extLoop strat s url L k rem = none →
    ∀ j, k ≤ j → j < k + rem → get_slink (strat url (L + j)) s ≠ none
  | k, 0, _, j, hkj, hjr => absurd (by omega : False) id
  | k, rem + 1, h, j, hkj, hjr => by
    unfold extLoop at h
    simp only [] at h
    split at h
    · exact absurd h (by simp)
    next hcand =>
      by_cases hj : j = k
      · subst hj
        exact hcand
      · exact extLoop_none_all strat s url L (k + 1) rem h j (by omega) (by omega)

theorem extLoop_some_first (strat : String → Nat → String) (s : StorageState) (url : String)
    (L : Nat) : ∀ (k rem : Nat) (cand : String), extLoop strat s url L k rem = some cand →
    ∃ j, k ≤ j ∧ j < k + rem ∧ cand = strat url (L + j) ∧ get_slink cand s = none ∧
      ∀ i, k ≤ i → i < j → get_slink (strat url (L + i)) s ≠ none
  | k, 0, cand, h => absurd h (by simp [extLoop])
  | k, rem + 1, cand, h => by
    unfold extLoop at h
    simp only [] at h
    split at h
    next hfree =>
      cases h
      exact ⟨k, Nat.le_refl k, by omega, rfl, hfree, fun i hki hik => absurd (by omega) id⟩
    next hcand =>
      obtain ⟨j, hkj, hjr, hcj, hfree, hocc⟩ :=
        extLoop_some_first strat s url L (k + 1) rem cand h
      refine ⟨j, by omega, by omega, hcj, hfree, fun i hki hik => ?_⟩
      by_cases hi : i = k
      · subst hi
        exact hcand
      · exact hocc i (by omega) hik

/-- C6 amended.  Collision resolution: when the base code is occupied by
a different url, the manager re-invokes the strategy at minLength + k for
k = 1..maxExtra and takes the first candidate not occupied in storage;
when every extension is occupied it takes the salted fallback —
SHA-256 of `url-existingUrl`, Base62-encoded, sliced to
minLength + maxExtra + 2 — whose requested slice length differs from
every requested extension length minLength + k.  (The original claim's
stronger statement that the fallback code's length differs from every
code the extension loop can produce is false: the manager accepts any
injected strategy callable, which may return codes of any length — see
the counterexample.) -/
theorem c6_collision_resolution (env : UrlEnv) (cfg : MgrCfg)
    (strat : String → Nat → String) (s : StorageState) (u c : String)
    (s' : StorageState) (ex : SlinkRecord)
    (h : create_slink env cfg strat s u none false = Except.ok (c, s'))
    (hfind : find_code_by_url u s = none)
    (hget : get_slink (strat u cfg.minLength) s = some ex) :
    (∃ k, 1 ≤ k ∧ k ≤ cfg.maxExtra ∧ c = strat u (cfg.minLength + k) ∧
      get_slink c s = none ∧
      ∀ j, 1 ≤ j → j < k → get_slink (strat u (cfg.minLength + j)) s ≠ none) ∨
    ((∀ k, 1 ≤ k → k ≤ cfg.maxExtra → get_slink (strat u (cfg.minLength + k)) s ≠ none) ∧
     c = saltedFallback u ex.url cfg.minLength cfg.maxExtra ∧
     ∀ k, 1 ≤ k → k ≤ cfg.maxExtra →
       cfg.minLength + cfg.maxExtra + 2 ≠ cfg.minLength + k) := by
  unfold create_slink at h
  simp only [] at h
  split at h
  · exact absurd h (by simp)
  · split at h
    · exact absurd h (by simp)
    · split at h
      · exact absurd h (by simp)
      · split at h
        next htr => simp [aliasTruthy] at htr
        next =>
          split at h
          next c0 heq =>
            rw [hfind] at heq
            exact absurd heq (by simp)
          next heq =>
            split at h
            next hget2 =>
              rw [hget] at hget2
              exact absurd hget2 (by simp)
            next existing hget2 =>
              rw [hget] at hget2
              cases hget2
              split at h
              next hurl =>
                exact absurd hurl (find_code_by_url_none_get u _ s _ hfind hget)
              next hurl =>
                rcases hloop : extLoop strat s u cfg.minLength 1 cfg.maxExtra with _ | cand
                · rw [hloop] at h
                  simp only [] at h
                  split at h
                  next hres =>
                    cases h
                    refine Or.inr ⟨fun k hk1 hk2 => ?_, rfl, fun k hk1 hk2 => by omega⟩
                    exact extLoop_none_all strat s u cfg.minLength 1 cfg.maxExtra hloop k
                      hk1 (by omega)
                  next => exact absurd h (by simp)
                · rw [hloop] at h
                  simp only [] at h
                  split at h
                  next hres =>
                    cases h
                    obtain ⟨j, h1j, hjr, hcj, hfree, hocc⟩ :=
                      extLoop_some_first strat s u cfg.minLength 1 cfg.maxExtra cand hloop
                    exact Or.inl ⟨j, h1j, by omega, hcj, hfree,
                      fun i hi1 hij => hocc i hi1 hij⟩
                  next => exact absurd h (by simp)

def stratC14 : String → Nat → String := fun _ _ => "AAAAAAAAAAAAAA"

def storeC14 : StorageState := [("AAAAAAAAAAAAAA", ⟨"https://b.com", 0, none⟩)]

set_option maxRecDepth 20000 in
/-- Counterexample to C6 as stated: with an injected strategy that always
returns a fixed 14-character code (occupied by a different url), every
extension collides, the salted fallback of slice length
8 + 4 + 2 = 14 is chosen — and its length equals the length of every
code the extension loop can produce, contradicting the claim that the
fallback's length differs from them. -/
theorem c6_counterexample :
    extLoop stratC14 storeC14 "https://a.com" 8 1 4 = none ∧
    (create_slink envAllT cfg84 stratC14 storeC14 "https://a.com" none false).toOption.map
      (fun p => p.1) = some (saltedFallback "https://a.com" "https://b.com" 8 4) ∧
    (saltedFallback "https://a.com" "https://b.com" 8 4).length = 14 ∧
    (stratC14 "https://a.com" 9).length = 14 := by
  decide

def stratW : String → Nat → String := fun _ n => if n = 8 then "w8w8w8w8" else
  if n = 9 then "w9w9w9w9w" else "wAwAwAwAwA"

def storeW : StorageState :=
  [("w8w8w8w8", ⟨"https://b.com", 0, none⟩), ("w9w9w9w9w", ⟨"https://c.com", 0, none⟩)]

/-- Witness for C6's amended theorem on a concrete collision scenario
where the second extension is accepted. -/
theorem c6_collision_resolution_witness :
    (∃ k, 1 ≤ k ∧ k ≤ cfg84.maxExtra ∧
      "wAwAwAwAwA" = stratW "https://a.com" (cfg84.minLength + k) ∧
      get_slink "wAwAwAwAwA" storeW = none ∧
      ∀ j, 1 ≤ j → j < k →
        get_slink (stratW "https://a.com" (cfg84.minLength + j)) storeW ≠ none) ∨
    ((∀ k, 1 ≤ k → k ≤ cfg84.maxExtra →
        get_slink (stratW "https://a.com" (cfg84.minLength + k)) storeW ≠ none) ∧
     "wAwAwAwAwA" = saltedFallback "https://a.com" "https://b.com" cfg84.minLength
        cfg84.maxExtra ∧
     ∀ k, 1 ≤ k → k ≤ cfg84.maxExtra →
       cfg84.minLength + cfg84.maxExtra + 2 ≠ cfg84.minLength + k) :=
  c6_collision_resolution envAllT cfg84 stratW storeW "https://a.com" "wAwAwAwAwA"
    (storeW ++ [("wAwAwAwAwA", ⟨"https://a.com", 0, none⟩)]) ⟨"https://b.com", 0, none⟩
    (by rfl) (by rfl) (by rfl)

theorem pyTake_pyTake (s : String) (m n : Nat) : pyTake (pyTake s n) m = pyTake s (min m n) := by
  simp [pyTake, List.take_take]

theorem safe_len_in_range (cfgLen L : Nat) (h4 : 4 ≤ L) (h32 : L ≤ 32) :
    safe_len cfgLen (some L) = L := by
  unfold safe_len
  rw [Option.getD_some, Nat.min_eq_right h32, Nat.max_eq_right h4]

/-- C5.  The content-hash and keyed-hash strategies are deterministic —
being pure functions of (url, counter, length) and (secret, url, counter,
length), stated here as invariance under equal inputs — and
prefix-consistent: for requested lengths 4 ≤ L1 ≤ L2 ≤ 32 the code at L1
is exactly the first L1 characters of the code at L2. -/
theorem c5_deterministic_prefix_consistency (cfgLen : Nat) (secret url : String)
    (counter L1 L2 : Nat) (h4 : 4 ≤ L1) (h12 : L1 ≤ L2) (h32 : L2 ≤ 32) :
    sha256_generate cfgLen url (some L1) counter =
      pyTake (sha256_generate cfgLen url (some L2) counter) L1 ∧
    hmac_sha256_generate secret cfgLen url (some L1) counter =
      pyTake (hmac_sha256_generate secret cfgLen url (some L2) counter) L1 ∧
    (∀ url2 c2, url2 = url → c2 = counter →
      sha256_generate cfgLen url2 (some L1) c2 =
        sha256_generate cfgLen url (some L1) counter) ∧
    (∀ url2 c2, url2 = url → c2 = counter →
      hmac_sha256_generate secret cfgLen url2 (some L1) c2 =
        hmac_sha256_generate secret cfgLen url (some L1) counter) := by
  have e1 : safe_len cfgLen (some L1) = L1 := safe_len_in_range _ _ h4 (by omega)
  have e2 : safe_len cfgLen (some L2) = L2 := safe_len_in_range _ _ (by omega) h32
  refine ⟨?_, ?_, ?_, ?_⟩
  · unfold sha256_generate
    rw [e1, e2, pyTake_pyTake, Nat.min_eq_left h12]
  · unfold hmac_sha256_generate
    rw [e1, e2, pyTake_pyTake, Nat.min_eq_left h12]
  · rintro url2 c2 rfl rfl
    rfl
  · rintro url2 c2 rfl rfl
    rfl

/-- Witness for C5 at a concrete url with lengths 6 and 8. -/
theorem c5_deterministic_prefix_consistency_witness :
    sha256_generate 8 "https://example.com" (some 6) 0 =
      pyTake (sha256_generate 8 "https://example.com" (some 8) 0) 6 :=
  (c5_deterministic_prefix_consistency 8 "secret" "https://example.com" 0 6 8
    (by decide) (by decide) (by decide)).1

theorem b62digit_mem (d : Nat) : b62digit d ∈ base62Alphabet := by
  unfold b62digit
  rcases Nat.lt_or_ge d base62Alphabet.length with hd | hd
  · rw [List.getD_eq_getElem _ _ hd]
    exact List.getElem_mem hd
  · rw [List.getD_eq_default _ _ hd]
    decide

theorem isB62Char_of_mem (c : Char) (h : c ∈ base62Alphabet) : isB62Char c = true := by
  unfold isB62Char
  simpa [List.contains] using h

/-- All characters of a generated code lie in the 62-symbol alphabet. -/
def allB62 (str : String) : Bool := str.data.all isB62Char

theorem allB62_base62_encode_nat (n : Nat) : allB62 (base62_encode_nat n) = true := by
  unfold allB62 base62_encode_nat
  split
  · decide
  · simp only [List.all_eq_true, List.mem_reverse]
    intro c hc
    rw [b62Digits_eq_digits] at hc
    obtain ⟨d, -, rfl⟩ := List.mem_map.mp hc
    exact isB62Char_of_mem _ (b62digit_mem d)

theorem allB62_pyTake (s : String) (n : Nat) (h : allB62 s = true) :
    allB62 (pyTake s n) = true := by
  unfold allB62 at h ⊢
  unfold pyTake
  simp only [List.all_eq_true] at h ⊢
  exact fun c hc => h c (List.take_subset n s.data hc)

theorem allB62_append (s t : String) (hs : allB62 s = true) (ht : allB62 t = true) :
    allB62 (s ++ t) = true := by
  unfold allB62 at hs ht ⊢
  simp only [String.data_append, List.all_append, hs, ht, Bool.and_self]

/-- Counterexample to C7 as stated: the sequential strategy prepends the
configured shard prefix verbatim, so a prefix "-" yields the code
"-000000" containing a character outside the 62-symbol alphabet. -/
theorem c7_counterexample :
    allB62 (sequential_generate 6 "-" 0).1 = false ∧
    (sequential_generate 6 "-" 0).1 = "-000000" := by
  decide

/-- C7 amended.  Every strategy variant produces codes made only of
characters from the 62-symbol alphabet [0-9a-zA-Z] for every url,
requested length, counter, and configuration — with the proviso, forced
by the counterexample, that the sequential strategy's configured shard
prefix itself consists of alphabet characters (it is prepended verbatim
and never validated). -/
theorem c7_alphabet_restriction :
    (∀ (cfgLen : Nat) (url : String) (L : Option Nat) (ctr : Nat),
      allB62 (sha256_generate cfgLen url L ctr) = true) ∧
    (∀ (secret : String) (cfgLen : Nat) (url : String) (L : Option Nat) (ctr : Nat),
      allB62 (hmac_sha256_generate secret cfgLen url L ctr) = true) ∧
    (∀ (picks : Nat → Fin 62) (cfgLen : Nat) (L : Option Nat),
      allB62 (random_generate picks cfgLen L) = true) ∧
    (∀ (minLen : Nat) (pfx : String) (ctr : Nat), allB62 pfx = true →
      allB62 (sequential_generate minLen pfx ctr).1 = true) := by
  refine ⟨?_, ?_, ?_, ?_⟩
  · intro cfgLen url L ctr
    exact allB62_pyTake _ _ (allB62_base62_encode_nat _)
  · intro secret cfgLen url L ctr
    exact allB62_pyTake _ _ (allB62_base62_encode_nat _)
  · intro picks cfgLen L
    unfold random_generate allB62
    simp only [List.all_eq_true]
    intro c hc
    obtain ⟨i, -, rfl⟩ := List.mem_map.mp hc
    exact isB62Char_of_mem _ (b62digit_mem _)
  · intro minLen pfx ctr hpfx
    unfold sequential_generate
    simp only []
    have hpad : allB62 (if (base62_encode_nat ctr).length < minLen then
        String.mk (List.replicate (minLen - (base62_encode_nat ctr).length) '0' ++
          (base62_encode_nat ctr).data)
        else base62_encode_nat ctr) = true := by
      have henc := allB62_base62_encode_nat ctr
      split
      · unfold allB62 at henc ⊢
        simp only [List.all_eq_true] at henc ⊢
        intro c hc
        rcases List.mem_append.mp hc with hrep | hdat
        · rw [List.eq_of_mem_replicate hrep]
          decide
        · exact henc c hdat
      · exact henc
    split
    next hp => exact allB62_append pfx _ hpfx hpad
    next hp => exact hpad

/-- Witness for C7's amended theorem with the documented prefix "ap". -/
theorem c7_alphabet_restriction_witness :
    allB62 (sequential_generate 6 "ap" 0).1 = true :=
  c7_alphabet_restriction.2.2.2 6 "ap" 0 (by decide)

/-- Witness for C4: "mine" claimed for https://a.com on the empty store;
repeating returns "mine" unchanged, and claiming "mine" for
https://b.com raises AliasConflict. -/
theorem c4_alias_idempotency_conflict_witness :
    "mine" = "mine" ∧
    create_slink envAllT cfg84 stratFix
      [("mine", ⟨"https://a.com", 0, some "mine"⟩)] "https://a.com" (some "mine") false =
      Except.ok ("mine", [("mine", ⟨"https://a.com", 0, some "mine"⟩)]) ∧
    create_slink envAllT cfg84 stratFix
      [("mine", ⟨"https://a.com", 0, some "mine"⟩)] "https://b.com" (some "mine") false =
      Except.error SlinkError.aliasConflict :=
  c4_alias_idempotency_conflict envAllT cfg84 stratFix [] "https://a.com" "https://b.com"
    "mine" "mine" [("mine", ⟨"https://a.com", 0, some "mine"⟩)]
    (by decide) (by rfl) rfl rfl (by decide)
